import Mathlib

/-!
# origami-boat: the ripple scheduler, the light rig and the water shader

A shallow embedding of `src/home.js`.  Numbers are taken in an arbitrary
linearly ordered field `α` (the rationals for evaluation, the reals for the
statements about sine and cosine); the environment reads of the code
(`performance.now()`, `Math.random()`, `clock.getElapsedTime()`) and the
library functions `Math.sin`, `Math.cos`, `Math.PI` and GLSL `distance` are
parameters of the functions that use them.  The ripple scheduler rounds the result
of each arithmetic operation by a parameter `fl`; `roundDouble` is that rounding
for the doubles of JavaScript.
-/

namespace OrigamiBoat

variable {α : Type} [LinearOrderedField α]

/-! ## Doubles -/

/-- The integer nearest to `q`, the even one of the two when `q` lies half way. -/
def roundHalfEven (q : ℚ) : ℤ :=
  if q - ⌊q⌋ < 1 / 2 then ⌊q⌋
  else if 1 / 2 < q - ⌊q⌋ then ⌊q⌋ + 1
  else if ⌊q⌋ % 2 = 0 then ⌊q⌋
  else ⌊q⌋ + 1

/-- The exponent of the spacing of the doubles around `x`: 52 below the binary
exponent of `x`, which is never taken below `-1022` (subnormal numbers). -/
def ulpExponent (x : ℚ) : ℤ := max (Int.log 2 |x|) (-1022) - 52

/-- The double that an arithmetic operation with the exact result `x` delivers:
IEEE 754 binary64, round to nearest, ties to even.  Overflow to `Infinity` (results
of magnitude `2 ^ 1024` and more) is left out. -/
def roundDouble (x : ℚ) : ℚ :=
  roundHalfEven (x / 2 ^ ulpExponent x) * 2 ^ ulpExponent x

/-! ## Ripple scheduler (home.js, lines 13-14 and 115-120) -/

/-- The constant `maxRipples` (line 13). -/
def maxRipples : Nat := 5

/-- The initial value of `rippleStartTimes` (line 14): `Array(maxRipples).fill(-1.0)`. -/
def initialRippleStartTimes : List α := List.replicate maxRipples (-1)

/-- The call `Math.min(...xs)`: the smallest argument.  With no argument at all
JavaScript answers `+Infinity`, which is `none` here. -/
def mathMin : List α → Option α
  | [] => none
  | x :: xs => some (xs.foldl min x)

/-- The call `xs.indexOf(v)`: the first index whose element equals `v`; `none`
stands for the answer `-1` of JavaScript when no element equals `v`. -/
def indexOf : List α → α → Option Nat
  | [], _ => none
  | x :: rest, v => if x = v then some 0 else (indexOf rest v).map (· + 1)

/-- The local `oldestRippleIndex` of `createRipple` (line 117):
`rippleStartTimes.indexOf(Math.min(...rippleStartTimes))`. -/
def oldestRippleIndex (rippleStartTimes : List α) : Option Nat :=
  (mathMin rippleStartTimes).bind (indexOf rippleStartTimes)

/-- What one run of `createRipple` leaves behind: the timestamp list and the delay
handed to `setTimeout`. -/
structure RippleStep (α : Type) where
  /-- The global `rippleStartTimes` after the run. -/
  rippleStartTimes : List α
  /-- The second argument of `setTimeout(createRipple, ...)`, in milliseconds. -/
  timeoutDelay : α

/-- The function `createRipple` (lines 115-120).  `now` is the value read from
`performance.now()`, `random` the value read from `Math.random()`, and `fl` is the
rounding that the number type applies to the result of each arithmetic operation
(`roundDouble` for the doubles of JavaScript, the identity for exact arithmetic).  A
write at the
index `-1` (no element equals the minimum, which needs an empty list) adds a
property to the array object and changes no element. -/
def createRipple (fl : α → α) (now random : α) (rippleStartTimes : List α) :
    RippleStep α :=
  let currentTime := fl (now / 1000)
  { rippleStartTimes :=
      match oldestRippleIndex rippleStartTimes with
      | some i => rippleStartTimes.set i currentTime
      | none => rippleStartTimes
    timeoutDelay := fl (fl (random * 2000) + 500) }

/-- The timestamp list after a sequence of `createRipple` runs from the initial
list; each run is given by its pair `(performance.now(), Math.random())`. -/
def runRipples (fl : α → α) (calls : List (α × α)) : List α :=
  calls.foldl (fun times c => (createRipple fl c.1 c.2 times).rippleStartTimes)
    initialRippleStartTimes

/-- The values of `currentTime` (seconds) seen by a sequence of runs. -/
def currentTimes (fl : α → α) (calls : List (α × α)) : List α :=
  calls.map (fun c => fl (c.1 / 1000))

/-- The timestamp list after a sequence of runs together with the log of the slots
the runs have written, in order (the values of `oldestRippleIndex`). -/
def rippleHistory (fl : α → α) (calls : List (α × α)) : List α × List Nat :=
  calls.foldl
    (fun h c =>
      ((createRipple fl c.1 c.2 h.1).rippleStartTimes,
        h.2 ++ (oldestRippleIndex h.1).toList))
    (initialRippleStartTimes, [])

/-- The slots written by a sequence of runs from the initial list. -/
def writtenSlots (fl : α → α) (calls : List (α × α)) : List Nat :=
  (rippleHistory fl calls).2

/-! ## Light rig (home.js, lines 167-190) -/

/-- A `THREE.Vector3`, the `position` of a scene object. -/
structure Vec3 (α : Type) where
  x : α
  y : α
  z : α

/-- The module variables read by `moveLights`.  A variable that is still
`undefined` is `none`; of an object only its `position` is kept. -/
structure Scene (α : Type) where
  origamiBoat : Option (Vec3 α)
  light1 : Option (Vec3 α)
  light2 : Option (Vec3 α)
  light3 : Option (Vec3 α)
  light4 : Option (Vec3 α)

/-- The exception a JavaScript function can end in here. -/
inductive JsError where
  /-- Reading a property of `undefined`. -/
  | typeError
  deriving DecidableEq

/-- The property read `o.position`: a `TypeError` when `o` is `undefined`. -/
def positionOf (o : Option (Vec3 α)) : Except JsError (Vec3 α) :=
  match o with
  | some p => Except.ok p
  | none => Except.error JsError.typeError

/-- The body of the callback handed to `lights.forEach` (lines 181-188): the new
position of `light`, the element at `index`.  `boat` is `origamiBoat.position`. -/
def orbitLight (sin cos : α → α) (pi : α) (boat : Vec3 α) (time baseFrequency : α)
    (light : Vec3 α) (index : Nat) : Vec3 α :=
  let amplitude : α := 0.75
  let p1 : Vec3 α :=
    { light with x := boat.x + amplitude * sin (baseFrequency * time + index * pi / 2) }
  let p2 : Vec3 α :=
    { p1 with z := boat.z + amplitude * cos (baseFrequency * time + index * pi / 2) }
  { p2 with y := boat.y + 0.5 + 0.05 * sin (baseFrequency * time) }

/-- The function `moveLights` (lines 167-190).  `sin`, `cos` and `pi` are `Math.sin`,
`Math.cos` and `Math.PI`; `elapsed` is the value read from
`clock.getElapsedTime()`.  The `forEach` over the array literal
`[light1, light2, light3, light4]` is written out for the indices 0 to 3. -/
def moveLights (sin cos : α → α) (pi : α) (elapsed : α) (s : Scene α) :
    Except JsError (Scene α) :=
  if s.origamiBoat.isNone || s.light1.isNone || s.light2.isNone || s.light3.isNone
      || s.light4.isNone then
    Except.ok s
  else do
    let time := elapsed * 0.05
    let baseFrequency : α := 7.5
    let boat ← positionOf s.origamiBoat
    let l1 ← positionOf s.light1
    let l2 ← positionOf s.light2
    let l3 ← positionOf s.light3
    let l4 ← positionOf s.light4
    Except.ok
      { s with
        light1 := some (orbitLight sin cos pi boat time baseFrequency l1 0)
        light2 := some (orbitLight sin cos pi boat time baseFrequency l2 1)
        light3 := some (orbitLight sin cos pi boat time baseFrequency l3 2)
        light4 := some (orbitLight sin cos pi boat time baseFrequency l4 3) }

/-! ## Water shader (home.js, lines 25-57) -/

/-- A GLSL `vec2`. -/
structure Vec2 (α : Type) where
  x : α
  y : α

/-- GLSL `clamp(x, minVal, maxVal)`, which is `min(max(x, minVal), maxVal)`. -/
def clamp (x minVal maxVal : α) : α := min (max x minVal) maxVal

/-- GLSL `smoothstep(edge0, edge1, x)`: Hermite interpolation of the clamped ratio. -/
def smoothstep (edge0 edge1 x : α) : α :=
  let t := clamp ((x - edge0) / (edge1 - edge0)) 0 1
  t * t * (3 - 2 * t)

/-- The local `ringGradient` of the shader loop (lines 39-46) for a ripple of age
`rippleAge` at a fragment whose distance from the centre is `distanceFromCenter`. -/
def ringGradient (rippleAge distanceFromCenter : α) : α :=
  let radius := rippleAge * 0.02
  let edgeThickness : α := 0.005
  let innerEdge := radius - edgeThickness / 2
  let outerEdge := radius + edgeThickness / 2
  smoothstep innerEdge outerEdge distanceFromCenter
    - smoothstep outerEdge (outerEdge + edgeThickness) distanceFromCenter

/-- The local `fadeOut` of the shader loop (line 48). -/
def fadeOut (rippleAge : α) : α := 1 - rippleAge * 0.2

/-- One pass of the shader loop (lines 35-51): the new `alpha` after the slot whose
start time is `start`.  `distance` is the GLSL function of that name. -/
def rippleLoopBody (distance : Vec2 α → Vec2 α → α) (time : α) (vUv : Vec2 α)
    (alpha start : α) : α :=
  if start > 0 then
    let rippleAge := time - start
    let distanceFromCenter := distance vUv ⟨0.5, 0.5⟩
    max alpha (ringGradient rippleAge distanceFromCenter * fadeOut rippleAge)
  else alpha

/-- The alpha channel of `gl_FragColor` computed by `main` of the fragment shader
(lines 30-55): the loop runs over the slots of the uniform array from `alpha = 0`. -/
def fragmentAlpha (distance : Vec2 α → Vec2 α → α) (time : α)
    (rippleStartTimes : List α) (vUv : Vec2 α) : α :=
  rippleStartTimes.foldl (rippleLoopBody distance time vUv) 0

/-! ### Lemmas on the rounding to a double -/

theorem roundHalfEven_le (q : ℚ) (n : ℤ) (h : q ≤ n) : roundHalfEven q ≤ n := by
  have hf : ⌊q⌋ ≤ n := Int.floor_le_iff.mpr (by linarith)
  have hlt : 0 < q - ⌊q⌋ → ⌊q⌋ + 1 ≤ n := by
    intro hpos
    have h1 : (⌊q⌋ : ℚ) < n := by linarith
    have h2 : ⌊q⌋ < n := by exact_mod_cast h1
    omega
  unfold roundHalfEven
  split_ifs with h1 h2 h3
  · exact hf
  · exact hlt (by linarith)
  · exact hf
  · exact hlt (by linarith)

theorem le_roundHalfEven (q : ℚ) (n : ℤ) (h : (n : ℚ) ≤ q) : n ≤ roundHalfEven q := by
  have hf : n ≤ ⌊q⌋ := Int.le_floor.mpr h
  unfold roundHalfEven
  split_ifs <;> omega

theorem ulpExponent_nonpos (x : ℚ) (hx : |x| < 2 ^ 53) : ulpExponent x ≤ 0 := by
  have hlog : Int.log 2 |x| < 53 := by
    rcases (abs_nonneg x).eq_or_lt with h0 | hpos
    · rw [← h0, Int.log_zero_right]
      norm_num
    · have := (Int.lt_zpow_iff_log_lt (b := 2) (by norm_num) hpos (x := 53)).mp
        (by exact_mod_cast hx)
      exact this
  unfold ulpExponent
  have : max (Int.log 2 |x|) (-1022) ≤ 52 := max_le (by omega) (by norm_num)
  omega

theorem intCast_eq_mul_ulp (x : ℚ) (hx : |x| < 2 ^ 53) (c : ℤ) :
    ∃ n : ℤ, (c : ℚ) = n * 2 ^ ulpExponent x := by
  have hk := ulpExponent_nonpos x hx
  refine ⟨c * 2 ^ (-ulpExponent x).toNat, ?_⟩
  have h2 : (2 : ℚ) ^ ulpExponent x = ((2 : ℚ) ^ (-ulpExponent x).toNat)⁻¹ := by
    rw [← zpow_natCast, ← zpow_neg, Int.toNat_of_nonneg (by omega), neg_neg]
  rw [h2]
  push_cast
  field_simp

theorem roundDouble_le_intCast (x : ℚ) (hx : |x| < 2 ^ 53) (c : ℤ) (h : x ≤ c) :
    roundDouble x ≤ c := by
  obtain ⟨n, hn⟩ := intCast_eq_mul_ulp x hx c
  have hpos : (0 : ℚ) < 2 ^ ulpExponent x := zpow_pos (by norm_num) _
  have hq : x / 2 ^ ulpExponent x ≤ n := by
    rw [div_le_iff₀ hpos, ← hn]
    exact h
  have := roundHalfEven_le _ n hq
  unfold roundDouble
  rw [hn]
  exact mul_le_mul_of_nonneg_right (by exact_mod_cast this) (le_of_lt hpos)

theorem intCast_le_roundDouble (x : ℚ) (hx : |x| < 2 ^ 53) (c : ℤ) (h : (c : ℚ) ≤ x) :
    (c : ℚ) ≤ roundDouble x := by
  obtain ⟨n, hn⟩ := intCast_eq_mul_ulp x hx c
  have hpos : (0 : ℚ) < 2 ^ ulpExponent x := zpow_pos (by norm_num) _
  have hq : (n : ℚ) ≤ x / 2 ^ ulpExponent x := by
    rw [le_div_iff₀ hpos, ← hn]
    exact h
  have := le_roundHalfEven _ n hq
  unfold roundDouble
  rw [hn]
  exact mul_le_mul_of_nonneg_right (by exact_mod_cast this) (le_of_lt hpos)

theorem roundDouble_intCast (c : ℤ) (hc : |(c : ℚ)| < 2 ^ 53) : roundDouble c = c :=
  le_antisymm (roundDouble_le_intCast c hc c (le_refl _))
    (intCast_le_roundDouble c hc c (le_refl _))

/-- A whole number below `2 ^ 53` is a double. -/
theorem roundDouble_ofNat (n : ℕ) [n.AtLeastTwo] (hn : n < 2 ^ 53) :
    roundDouble (OfNat.ofNat n) = OfNat.ofNat n := by
  have hcast : ((n : ℤ) : ℚ) = OfNat.ofNat n := by
    rw [Int.cast_natCast]
    exact Nat.cast_eq_ofNat
  have h := roundDouble_intCast (n : ℤ) (by
    rw [abs_of_nonneg (by positivity)]
    exact_mod_cast hn)
  rwa [hcast] at h

/-- The whole numbers of seconds used in the examples below are doubles. -/
theorem roundDouble_seconds :
    roundDouble 3 = 3 ∧ roundDouble 5 = 5 ∧ roundDouble 7 = 7 ∧ roundDouble 10 = 10 ∧
      roundDouble 12 = 12 ∧ roundDouble 13 = 13 ∧ roundDouble 14 = 14 ∧
      roundDouble 15 = 15 ∧ roundDouble 16 = 16 ∧ roundDouble 20 = 20 :=
  ⟨roundDouble_ofNat 3 (by norm_num), roundDouble_ofNat 5 (by norm_num),
    roundDouble_ofNat 7 (by norm_num), roundDouble_ofNat 10 (by norm_num),
    roundDouble_ofNat 12 (by norm_num), roundDouble_ofNat 13 (by norm_num),
    roundDouble_ofNat 14 (by norm_num), roundDouble_ofNat 15 (by norm_num),
    roundDouble_ofNat 16 (by norm_num), roundDouble_ofNat 20 (by norm_num)⟩

theorem ulpExponent_eq (x : ℚ) (e : ℤ) (he : -1022 ≤ e) (h1 : (2 : ℚ) ^ e ≤ |x|)
    (h2 : |x| < 2 ^ (e + 1)) : ulpExponent x = e - 52 := by
  have hpos : 0 < |x| := lt_of_lt_of_le (zpow_pos (by norm_num) _) h1
  have ha : e ≤ Int.log 2 |x| :=
    (Int.zpow_le_iff_le_log (b := 2) (by norm_num) hpos).mp (by exact_mod_cast h1)
  have hb : Int.log 2 |x| < e + 1 :=
    (Int.lt_zpow_iff_log_lt (b := 2) (by norm_num) hpos).mp (by exact_mod_cast h2)
  unfold ulpExponent
  rw [max_eq_left (by omega)]
  omega

theorem roundHalfEven_of_lt_half (q : ℚ) (f : ℤ) (h1 : (f : ℚ) ≤ q) (h2 : q - f < 1 / 2) :
    roundHalfEven q = f := by
  have hf : ⌊q⌋ = f := Int.floor_eq_iff.mpr ⟨h1, by linarith⟩
  unfold roundHalfEven
  rw [hf, if_pos h2]

theorem roundHalfEven_of_tie_odd (q : ℚ) (f : ℤ) (h1 : q = f + 1 / 2) (h2 : f % 2 = 1) :
    roundHalfEven q = f + 1 := by
  have hf : ⌊q⌋ = f := Int.floor_eq_iff.mpr ⟨by linarith, by linarith⟩
  have hd : q - f = 1 / 2 := by linarith
  unfold roundHalfEven
  rw [hf, hd, if_neg (lt_irrefl _), if_neg (lt_irrefl _), if_neg (by omega)]

theorem roundDouble_eq_of (x : ℚ) (e n : ℤ) (he : -1022 ≤ e) (h1 : (2 : ℚ) ^ e ≤ |x|)
    (h2 : |x| < 2 ^ (e + 1)) (hn : roundHalfEven (x / 2 ^ (e - 52)) = n) :
    roundDouble x = n * 2 ^ (e - 52) := by
  unfold roundDouble
  rw [ulpExponent_eq x e he h1 h2, hn]

/-! ### Lemmas on `Math.min` and `indexOf` -/

theorem foldl_min_le_init (xs : List α) (x : α) : xs.foldl min x ≤ x := by
  induction xs generalizing x with
  | nil => exact le_refl x
  | cons y ys ih => exact le_trans (ih (min x y)) (min_le_left x y)

theorem foldl_min_le_of_mem (xs : List α) (x y : α) (hy : y ∈ xs) :
    xs.foldl min x ≤ y := by
  induction xs generalizing x with
  | nil => cases hy
  | cons z zs ih =>
    rcases List.mem_cons.mp hy with h | h
    · subst h
      exact le_trans (foldl_min_le_init zs (min x y)) (min_le_right x y)
    · exact ih (min x z) h

theorem foldl_min_mem (xs : List α) (x : α) : xs.foldl min x ∈ x :: xs := by
  induction xs generalizing x with
  | nil => simp
  | cons y ys ih =>
    have h := ih (min x y)
    rw [List.foldl_cons]
    rcases List.mem_cons.mp h with h1 | h1
    · rw [h1]
      rcases min_choice x y with hc | hc
      · rw [hc]
        exact List.mem_cons_self x _
      · rw [hc]
        exact List.mem_cons_of_mem x (List.mem_cons_self y _)
    · exact List.mem_cons_of_mem x (List.mem_cons_of_mem y h1)

/-- On a list that is not empty `Math.min` answers an element of the list that is
below every element. -/
theorem mathMin_spec (xs : List α) (hne : xs ≠ []) :
    ∃ m, mathMin xs = some m ∧ m ∈ xs ∧ ∀ x ∈ xs, m ≤ x := by
  cases xs with
  | nil => exact absurd rfl hne
  | cons x rest =>
    refine ⟨rest.foldl min x, rfl, foldl_min_mem rest x, ?_⟩
    intro y hy
    rcases List.mem_cons.mp hy with h | h
    · subst h
      exact foldl_min_le_init rest y
    · exact foldl_min_le_of_mem rest x y h

/-- The answer of `indexOf` for an element of the list: its first position. -/
theorem indexOf_spec (xs : List α) (v : α) (hv : v ∈ xs) :
    ∃ i, indexOf xs v = some i ∧ xs[i]? = some v ∧ ∀ j, j < i → xs[j]? ≠ some v := by
  induction xs with
  | nil => cases hv
  | cons x rest ih =>
    by_cases hx : x = v
    · refine ⟨0, by simp [indexOf, hx], by simp [hx], ?_⟩
      intro j hj
      omega
    · have hmem : v ∈ rest := by
        rcases List.mem_cons.mp hv with h | h
        · exact absurd h.symm hx
        · exact h
      obtain ⟨i, hi, hget, hfirst⟩ := ih hmem
      refine ⟨i + 1, by simp [indexOf, hx, hi], by simpa using hget, ?_⟩
      intro j hj
      cases j with
      | zero => simpa using hx
      | succ k =>
        have := hfirst k (by omega)
        simpa using this

/-- Overwriting the first position of `v` is, up to order, removing one `v` and
adding the new value. -/
theorem set_indexOf_perm (xs : List α) (v t : α) (i : Nat) (hi : indexOf xs v = some i) :
    (xs.set i t).Perm (t :: xs.erase v) := by
  induction xs generalizing i with
  | nil => simp [indexOf] at hi
  | cons x rest ih =>
    by_cases hx : x = v
    · simp [indexOf, hx] at hi
      subst hi
      simp [hx]
    · simp only [indexOf, hx, if_false, Option.map_eq_some'] at hi
      obtain ⟨j, hj, rfl⟩ := hi
      have h1 := ih j hj
      have hne : (x == v) = false := by simpa using hx
      rw [List.set_cons_succ, List.erase_cons, hne]
      exact (List.Perm.cons x h1).trans (List.Perm.swap t x _)

/-- The list part of `createRipple` on a list that is not empty: the slot written
is the first position of the minimum. -/
theorem createRipple_times (fl : α → α) (now random : α) (xs : List α) (hne : xs ≠ []) :
    ∃ m i, mathMin xs = some m ∧ indexOf xs m = some i ∧ m ∈ xs ∧ (∀ x ∈ xs, m ≤ x) ∧
      xs[i]? = some m ∧ (∀ j, j < i → xs[j]? ≠ some m) ∧
      (createRipple fl now random xs).rippleStartTimes = xs.set i (fl (now / 1000)) := by
  obtain ⟨m, hm, hmem, hle⟩ := mathMin_spec xs hne
  obtain ⟨i, hi, hget, hfirst⟩ := indexOf_spec xs m hmem
  refine ⟨m, i, hm, hi, hmem, hle, hget, hfirst, ?_⟩
  simp [createRipple, oldestRippleIndex, hm, hi]

theorem createRipple_length (fl : α → α) (now random : α) (xs : List α) :
    (createRipple fl now random xs).rippleStartTimes.length = xs.length := by
  unfold createRipple
  simp only
  split <;> simp

theorem runRipples_snoc (fl : α → α) (calls : List (α × α)) (c : α × α) :
    runRipples fl (calls ++ [c]) = (createRipple fl c.1 c.2 (runRipples fl calls)).rippleStartTimes := by
  simp [runRipples, List.foldl_append]

theorem runRipples_length (fl : α → α) (calls : List (α × α)) :
    (runRipples fl calls).length = maxRipples := by
  induction calls using List.reverseRecOn with
  | nil => simp [runRipples, initialRippleStartTimes]
  | append_singleton cs c ih => rw [runRipples_snoc fl, createRipple_length fl, ih]

/-- Up to order, one run of `createRipple` removes one copy of the minimum and adds
the current time. -/
theorem createRipple_perm (fl : α → α) (now random : α) (xs : List α) (hne : xs ≠ []) :
    ∃ m, m ∈ xs ∧ (∀ x ∈ xs, m ≤ x) ∧
      ((createRipple fl now random xs).rippleStartTimes).Perm ((fl (now / 1000)) :: xs.erase m) := by
  obtain ⟨m, i, -, hi, hmem, hle, -, -, hset⟩ := createRipple_times fl now random xs hne
  refine ⟨m, hmem, hle, ?_⟩
  rw [hset]
  exact set_indexOf_perm xs m (fl (now / 1000)) i hi

theorem runRipples_ne_nil (fl : α → α) (calls : List (α × α)) : runRipples fl calls ≠ [] := by
  intro h
  have := runRipples_length fl calls
  rw [h] at this
  simp [maxRipples] at this

theorem currentTimes_snoc (fl : α → α) (calls : List (α × α)) (c : α × α) :
    currentTimes fl (calls ++ [c]) = currentTimes fl calls ++ [fl (c.1 / 1000)] := by
  simp [currentTimes]

theorem currentTimes_length (fl : α → α) (calls : List (α × α)) :
    (currentTimes fl calls).length = calls.length := by
  simp [currentTimes]

/-- When the current times never decrease and are above the sentinel, the list is,
up to order, the last five entries of the five sentinels followed by all the
current times so far. -/
theorem runRipples_perm_window (fl : α → α) (calls : List (α × α))
    (hsorted : (currentTimes fl calls).Pairwise (· ≤ ·))
    (hpos : ∀ t ∈ currentTimes fl calls, -1 < t) :
    (runRipples fl calls).Perm
      ((List.replicate 5 (-1 : α) ++ currentTimes fl calls).drop calls.length) := by
  induction calls using List.reverseRecOn with
  | nil => simp [runRipples, initialRippleStartTimes, maxRipples, currentTimes]
  | append_singleton cs c ih =>
    rw [currentTimes_snoc fl] at hsorted hpos
    rw [List.pairwise_append] at hsorted
    obtain ⟨hs1, -, hs3⟩ := hsorted
    have hpos1 : ∀ t ∈ currentTimes fl cs, -1 < t := fun t ht =>
      hpos t (List.mem_append_left _ ht)
    have ihp := ih hs1 hpos1
    have hfull : (List.replicate 5 (-1 : α) ++ currentTimes fl cs).Pairwise (· ≤ ·) := by
      rw [List.pairwise_append]
      refine ⟨?_, hs1, ?_⟩
      · rw [List.pairwise_replicate]
        right
        exact le_refl _
      · intro a ha b hb
        rw [List.eq_of_mem_replicate ha]
        exact le_of_lt (hpos1 b hb)
    have hn : cs.length < (List.replicate 5 (-1 : α) ++ currentTimes fl cs).length := by
      simp only [List.length_append, List.length_replicate, currentTimes_length fl]
      omega
    rw [List.drop_eq_getElem_cons hn] at ihp
    have hdrop : ((List.replicate 5 (-1 : α) ++ currentTimes fl cs).drop cs.length).Pairwise
        (· ≤ ·) := hfull.sublist (List.drop_sublist _ _)
    rw [List.drop_eq_getElem_cons hn, List.pairwise_cons] at hdrop
    obtain ⟨m, hmem, hle, hperm⟩ := createRipple_perm fl c.1 c.2 (runRipples fl cs)
      (runRipples_ne_nil fl cs)
    have hm : m = (List.replicate 5 (-1 : α) ++ currentTimes fl cs)[cs.length] := by
      apply le_antisymm
      · exact hle _ (ihp.symm.subset (List.mem_cons_self _ _))
      · rcases List.mem_cons.mp (ihp.subset hmem) with h | h
        · exact le_of_eq h.symm
        · exact hdrop.1 m h
    rw [runRipples_snoc fl, currentTimes_snoc fl, ← List.append_assoc, List.length_append,
      List.length_singleton, List.drop_append_of_le_length (by omega)]
    refine hperm.trans ?_
    have h2 := (ihp.erase m)
    rw [hm, List.erase_cons_head] at h2
    rw [hm]
    exact (List.Perm.cons _ h2).trans (List.perm_append_singleton _ _).symm

/-- The sentinels left after a sequence of runs whose current times are above the
sentinel: every entry is at least the sentinel and `5 - n` entries are equal to it. -/
theorem runRipples_sentinels (fl : α → α) (calls : List (α × α))
    (hpos : ∀ t ∈ currentTimes fl calls, -1 < t) :
    (∀ x ∈ runRipples fl calls, (-1 : α) ≤ x) ∧
      (runRipples fl calls).count (-1) = 5 - calls.length := by
  induction calls using List.reverseRecOn with
  | nil =>
    constructor
    · intro x hx
      simp [runRipples, initialRippleStartTimes] at hx
      rw [hx.2]
    · simp [runRipples, initialRippleStartTimes, maxRipples]
  | append_singleton cs c ih =>
    rw [currentTimes_snoc fl] at hpos
    have ht : -1 < fl (c.1 / 1000) := hpos _ (by simp)
    obtain ⟨hge, hcount⟩ := ih (fun t h => hpos t (List.mem_append_left _ h))
    obtain ⟨m, hmem, hle, hperm⟩ := createRipple_perm fl c.1 c.2 (runRipples fl cs)
      (runRipples_ne_nil fl cs)
    rw [runRipples_snoc fl]
    constructor
    · intro x hx
      rcases List.mem_cons.mp (hperm.subset hx) with h | h
      · rw [h]
        exact le_of_lt ht
      · exact hge x (List.mem_of_mem_erase h)
    · rw [hperm.count_eq, List.count_cons_of_ne (ne_of_lt ht), List.length_append,
        List.length_singleton]
      by_cases hin : (-1 : α) ∈ runRipples fl cs
      · have hm : m = -1 := le_antisymm (hle _ hin) (hge m hmem)
        rw [hm, List.count_erase_self, hcount]
        omega
      · have hz : (runRipples fl cs).count (-1) = 0 := List.count_eq_zero.mpr hin
        have hne : (-1 : α) ≠ m := fun h => hin (h ▸ hmem)
        rw [List.count_erase_of_ne hne, hz]
        omega

/-! ### Lemmas on the log of written slots -/

theorem rippleHistory_snoc (fl : α → α) (calls : List (α × α)) (c : α × α) :
    rippleHistory fl (calls ++ [c]) =
      ((createRipple fl c.1 c.2 (rippleHistory fl calls).1).rippleStartTimes,
        (rippleHistory fl calls).2 ++ (oldestRippleIndex (rippleHistory fl calls).1).toList) := by
  simp [rippleHistory, List.foldl_append]

theorem rippleHistory_fst (fl : α → α) (calls : List (α × α)) :
    (rippleHistory fl calls).1 = runRipples fl calls := by
  induction calls using List.reverseRecOn with
  | nil => rfl
  | append_singleton cs c ih => rw [rippleHistory_snoc fl, runRipples_snoc fl, ih]

/-- A slot that no run has written holds its initial value; a written slot holds
the current time of one of the runs. -/
theorem runRipples_slot (fl : α → α) (calls : List (α × α)) (i : Nat) :
    (i ∉ writtenSlots fl calls →
        (runRipples fl calls)[i]? = (initialRippleStartTimes : List α)[i]?) ∧
      (i ∈ writtenSlots fl calls → ∃ t ∈ currentTimes fl calls, (runRipples fl calls)[i]? = some t) := by
  induction calls using List.reverseRecOn with
  | nil =>
    constructor
    · intro _
      rfl
    · intro h
      simp [writtenSlots, rippleHistory] at h
  | append_singleton cs c ih =>
    obtain ⟨m, j, hm, hj, -, -, hget, -, hset⟩ :=
      createRipple_times fl c.1 c.2 (runRipples fl cs) (runRipples_ne_nil fl cs)
    have hjlt : j < (runRipples fl cs).length := by
      rcases Nat.lt_or_ge j (runRipples fl cs).length with h | h
      · exact h
      · rw [List.getElem?_eq_none h] at hget
        cases hget
    have hw : writtenSlots fl (cs ++ [c]) = writtenSlots fl cs ++ [j] := by
      simp [writtenSlots, rippleHistory_snoc fl, rippleHistory_fst fl, oldestRippleIndex, hm, hj]
    rw [hw, runRipples_snoc fl, hset, currentTimes_snoc fl]
    constructor
    · intro hnot
      rw [List.mem_append, not_or, List.mem_singleton] at hnot
      rw [List.getElem?_set_ne (Ne.symm hnot.2)]
      exact ih.1 hnot.1
    · intro hin
      by_cases hij : i = j
      · subst hij
        refine ⟨fl (c.1 / 1000), by simp, ?_⟩
        simp [hjlt]
      · rw [List.mem_append, List.mem_singleton] at hin
        rcases hin with h | h
        · obtain ⟨t, ht, hslot⟩ := ih.2 h
          refine ⟨t, List.mem_append_left _ ht, ?_⟩
          rw [List.getElem?_set_ne (Ne.symm hij)]
          exact hslot
        · exact absurd h hij

/-! ### Lemmas on the shader -/

theorem clamp_unit_nonneg (q : α) : 0 ≤ clamp q 0 1 :=
  le_min (le_max_right q 0) zero_le_one

theorem clamp_unit_le_one (q : α) : clamp q 0 1 ≤ 1 :=
  min_le_right _ _

theorem smoothstep_nonneg (edge0 edge1 x : α) : 0 ≤ smoothstep edge0 edge1 x := by
  have h0 := clamp_unit_nonneg ((x - edge0) / (edge1 - edge0))
  have h1 := clamp_unit_le_one ((x - edge0) / (edge1 - edge0))
  unfold smoothstep
  exact mul_nonneg (mul_self_nonneg _) (by linarith)

theorem smoothstep_le_one (edge0 edge1 x : α) : smoothstep edge0 edge1 x ≤ 1 := by
  have h0 := clamp_unit_nonneg ((x - edge0) / (edge1 - edge0))
  have h1 := clamp_unit_le_one ((x - edge0) / (edge1 - edge0))
  unfold smoothstep
  simp only
  generalize clamp ((x - edge0) / (edge1 - edge0)) 0 1 = t at h0 h1
  have h2 : 0 ≤ (1 - t) * (1 - t) * (1 + 2 * t) :=
    mul_nonneg (mul_self_nonneg _) (by linarith)
  nlinarith [h2]

theorem smoothstep_of_le_edge0 (edge0 edge1 x : α) (hedge : edge0 < edge1) (hx : x ≤ edge0) :
    smoothstep edge0 edge1 x = 0 := by
  have hq : (x - edge0) / (edge1 - edge0) ≤ 0 :=
    div_nonpos_of_nonpos_of_nonneg (by linarith) (by linarith)
  unfold smoothstep clamp
  rw [max_eq_right hq, min_eq_left zero_le_one]
  simp

theorem smoothstep_of_edge1_le (edge0 edge1 x : α) (hedge : edge0 < edge1) (hx : edge1 ≤ x) :
    smoothstep edge0 edge1 x = 1 := by
  have hpos : 0 < edge1 - edge0 := by linarith
  have hq : 1 ≤ (x - edge0) / (edge1 - edge0) := by
    rw [le_div_iff₀ hpos]
    linarith
  unfold smoothstep clamp
  rw [max_eq_left (by linarith), min_eq_right hq]
  norm_num

/-- The ring profile is never negative. -/
theorem ringGradient_nonneg (rippleAge d : α) : 0 ≤ ringGradient rippleAge d := by
  unfold ringGradient
  simp only
  rcases le_or_lt d (rippleAge * 0.02 + 0.005 / 2) with h | h
  · rw [smoothstep_of_le_edge0 _ _ d (by norm_num) h, sub_zero]
    exact smoothstep_nonneg _ _ _
  · rw [smoothstep_of_edge1_le (rippleAge * 0.02 - 0.005 / 2) _ d
      (by linarith [show (0 : α) < 0.005 / 2 by norm_num]) (le_of_lt h)]
    linarith [smoothstep_le_one (rippleAge * 0.02 + 0.005 / 2)
      (rippleAge * 0.02 + 0.005 / 2 + 0.005) d]

/-- From the age of 5 seconds on the fade factor is not positive. -/
theorem fadeOut_nonpos (rippleAge : α) (hage : 5 ≤ rippleAge) : fadeOut rippleAge ≤ 0 := by
  unfold fadeOut
  norm_num
  linarith

theorem rippleLoopBody_ge (distance : Vec2 α → Vec2 α → α) (time : α) (vUv : Vec2 α)
    (alpha start : α) : alpha ≤ rippleLoopBody distance time vUv alpha start := by
  unfold rippleLoopBody
  split
  · exact le_max_left _ _
  · exact le_refl _

/-- A slot that is not started or is 5 seconds old leaves a non-negative `alpha`
as it is. -/
theorem rippleLoopBody_dead (distance : Vec2 α → Vec2 α → α) (time : α) (vUv : Vec2 α)
    (alpha start : α) (halpha : 0 ≤ alpha) (hdead : ¬ 0 < start ∨ 5 ≤ time - start) :
    rippleLoopBody distance time vUv alpha start = alpha := by
  unfold rippleLoopBody
  split
  · rename_i hstart
    rcases hdead with h | h
    · exact absurd hstart h
    · apply max_eq_left
      exact le_trans
        (mul_nonpos_of_nonneg_of_nonpos (ringGradient_nonneg _ _) (fadeOut_nonpos _ h)) halpha
  · rfl

theorem foldl_rippleLoopBody_ge (distance : Vec2 α → Vec2 α → α) (time : α) (vUv : Vec2 α)
    (slots : List α) (alpha : α) :
    alpha ≤ slots.foldl (rippleLoopBody distance time vUv) alpha := by
  induction slots generalizing alpha with
  | nil => exact le_refl _
  | cons s rest ih =>
    exact le_trans (rippleLoopBody_ge distance time vUv alpha s) (ih _)

theorem foldl_rippleLoopBody_eraseIdx (distance : Vec2 α → Vec2 α → α) (time : α)
    (vUv : Vec2 α) (slots : List α) (alpha : α) (halpha : 0 ≤ alpha) (i : Nat)
    (hi : i < slots.length) (hdead : ¬ 0 < slots[i] ∨ 5 ≤ time - slots[i]) :
    (slots.eraseIdx i).foldl (rippleLoopBody distance time vUv) alpha
      = slots.foldl (rippleLoopBody distance time vUv) alpha := by
  induction slots generalizing alpha i with
  | nil => simp at hi
  | cons s rest ih =>
    cases i with
    | zero =>
      simp only [List.getElem_cons_zero] at hdead
      simp only [List.eraseIdx_cons_zero, List.foldl_cons]
      rw [rippleLoopBody_dead distance time vUv alpha s halpha hdead]
    | succ k =>
      simp only [List.getElem_cons_succ] at hdead
      simp only [List.eraseIdx_cons_succ, List.foldl_cons]
      exact ih _ (le_trans halpha (rippleLoopBody_ge distance time vUv alpha s)) k
        (by simpa using hi) hdead

/-! ## The claims -/

/-- C1: for every timestamp list of length 5 and every current time
`t = performance.now() / 1000` (rounded by `fl`, whatever that rounding is), one run
of `createRipple` writes `t` into the slot at the lowest index holding the minimum
of the list before the run, and leaves every other slot as it was. -/
theorem C1_createRipple_overwrites_first_minimum (fl : α → α) (now random : α) (xs : List α)
    (hlen : xs.length = 5) :
    ∃ i m, i < 5 ∧ xs[i]? = some m ∧ (∀ x ∈ xs, m ≤ x) ∧ (∀ j, j < i → xs[j]? ≠ some m) ∧
      (createRipple fl now random xs).rippleStartTimes[i]? = some (fl (now / 1000)) ∧
      ∀ j, j ≠ i → (createRipple fl now random xs).rippleStartTimes[j]? = xs[j]? := by
  have hne : xs ≠ [] := by
    intro h
    rw [h] at hlen
    simp at hlen
  obtain ⟨m, i, -, -, -, hle, hget, hfirst, hset⟩ := createRipple_times fl now random xs hne
  have hi : i < xs.length := by
    rcases Nat.lt_or_ge i xs.length with h | h
    · exact h
    · rw [List.getElem?_eq_none h] at hget
      cases hget
  refine ⟨i, m, by omega, hget, hle, hfirst, ?_, ?_⟩
  · rw [hset]
    simp [hi]
  · intro j hj
    rw [hset]
    simp [List.getElem?_set, Ne.symm hj]

/-- C1, in doubles, at the initial list and the time 10.0: the run yields
`[10, -1, -1, -1, -1]`. -/
theorem C1_createRipple_overwrites_first_minimum_witness :
    (initialRippleStartTimes : List ℚ).length = 5 ∧
    (createRipple roundDouble (10000 : ℚ) 0 initialRippleStartTimes).rippleStartTimes
      = [10, -1, -1, -1, -1] ∧
    ∃ i m, i < 5 ∧ (initialRippleStartTimes : List ℚ)[i]? = some m ∧
      (∀ x ∈ (initialRippleStartTimes : List ℚ), m ≤ x) ∧
      (∀ j, j < i → (initialRippleStartTimes : List ℚ)[j]? ≠ some m) ∧
      (createRipple roundDouble (10000 : ℚ) 0 initialRippleStartTimes).rippleStartTimes[i]?
        = some (roundDouble ((10000 : ℚ) / 1000)) ∧
      ∀ j, j ≠ i →
        (createRipple roundDouble (10000 : ℚ) 0 initialRippleStartTimes).rippleStartTimes[j]?
          = (initialRippleStartTimes : List ℚ)[j]? :=
  ⟨by simp [initialRippleStartTimes, maxRipples],
   by
    norm_num [createRipple, oldestRippleIndex, initialRippleStartTimes, maxRipples, mathMin,
      indexOf, List.replicate, min_def, roundDouble_seconds],
   C1_createRipple_overwrites_first_minimum roundDouble (10000 : ℚ) 0 initialRippleStartTimes
    (by simp [initialRippleStartTimes, maxRipples])⟩

/-- C2: from the initial list, for every rounding `fl` of the arithmetic and every
sequence of `n` runs whose current times `t_1 ≤ ... ≤ t_n` never decrease and are all above `-1`, the list after the `n` runs
holds, as a multiset, the `min n 5` most recent current times together with
`5 - min n 5` sentinels: a run fills a sentinel slot while one is left and evicts
the oldest ripple afterwards. -/
theorem C2_runRipples_keeps_most_recent (fl : α → α) (calls : List (α × α))
    (hmono : (currentTimes fl calls).Chain' (· ≤ ·))
    (hpos : ∀ t ∈ currentTimes fl calls, -1 < t) :
    (runRipples fl calls).Perm
      ((currentTimes fl calls).drop (calls.length - min calls.length 5)
        ++ List.replicate (5 - min calls.length 5) (-1)) := by
  have hsorted : (currentTimes fl calls).Pairwise (· ≤ ·) := List.chain'_iff_pairwise.mp hmono
  refine (runRipples_perm_window fl calls hsorted hpos).trans ?_
  rw [List.drop_append_eq_append_drop, List.drop_replicate, List.length_replicate]
  have h1 : calls.length - min calls.length 5 = calls.length - 5 := by omega
  have h2 : 5 - min calls.length 5 = 5 - calls.length := by omega
  rw [h1, h2]
  exact List.perm_append_comm

/-- C2, in doubles, at six runs at the seconds 10, 12, 13, 14, 15, 16: the list ends as
`[16, 12, 13, 14, 15]`, the five most recent times. -/
theorem C2_runRipples_keeps_most_recent_witness :
    (currentTimes roundDouble [((10000 : ℚ), (0 : ℚ)), (12000, 1 / 2), (13000, 0), (14000, 0),
      (15000, 0), (16000, 0)]).Chain' (· ≤ ·) ∧
    (∀ t ∈ currentTimes roundDouble [((10000 : ℚ), (0 : ℚ)), (12000, 1 / 2), (13000, 0), (14000, 0),
      (15000, 0), (16000, 0)], -1 < t) ∧
    runRipples roundDouble [((10000 : ℚ), (0 : ℚ)), (12000, 1 / 2), (13000, 0), (14000, 0),
      (15000, 0), (16000, 0)] = [16, 12, 13, 14, 15] ∧
    (runRipples roundDouble [((10000 : ℚ), (0 : ℚ)), (12000, 1 / 2), (13000, 0), (14000, 0),
      (15000, 0), (16000, 0)]).Perm
      ((currentTimes roundDouble [((10000 : ℚ), (0 : ℚ)), (12000, 1 / 2), (13000, 0), (14000, 0),
        (15000, 0), (16000, 0)]).drop (6 - min 6 5) ++ List.replicate (5 - min 6 5) (-1)) :=
  ⟨by norm_num [currentTimes, roundDouble_seconds],
   by norm_num [currentTimes, roundDouble_seconds],
   by
    norm_num [runRipples, createRipple, oldestRippleIndex, mathMin, indexOf, initialRippleStartTimes,
      maxRipples, List.replicate, min_def, roundDouble_seconds],
   C2_runRipples_keeps_most_recent roundDouble
    [((10000 : ℚ), (0 : ℚ)), (12000, 1 / 2), (13000, 0), (14000, 0), (15000, 0), (16000, 0)]
    (by norm_num [currentTimes, roundDouble_seconds])
    (by norm_num [currentTimes, roundDouble_seconds])⟩

/-- C3: from the initial list, for every rounding `fl` of the arithmetic, after
`n ≥ 5` runs whose current times are all above `-1`, no slot of the timestamp list holds the sentinel `-1`. -/
theorem C3_no_sentinel_after_five_runs (fl : α → α) (calls : List (α × α)) (hn : 5 ≤ calls.length)
    (hpos : ∀ t ∈ currentTimes fl calls, -1 < t) :
    ∀ x ∈ runRipples fl calls, x ≠ -1 := by
  intro x hx hx1
  have hcount := (runRipples_sentinels fl calls hpos).2
  have hz : (runRipples fl calls).count (-1) = 0 := by
    rw [hcount]
    omega
  exact List.count_eq_zero.mp hz (hx1 ▸ hx)

/-- C3, in doubles, at five runs at the seconds 10, 3, 7, 20, 5 (in no order): the list ends as
`[10, 3, 7, 20, 5]`. -/
theorem C3_no_sentinel_after_five_runs_witness :
    5 ≤ [((10000 : ℚ), (0 : ℚ)), (3000, 0), (7000, 0), (20000, 0), (5000, 0)].length ∧
    (∀ t ∈ currentTimes roundDouble [((10000 : ℚ), (0 : ℚ)), (3000, 0), (7000, 0), (20000, 0),
      (5000, 0)], -1 < t) ∧
    runRipples roundDouble [((10000 : ℚ), (0 : ℚ)), (3000, 0), (7000, 0), (20000, 0), (5000, 0)]
      = [10, 3, 7, 20, 5] ∧
    ∀ x ∈ runRipples roundDouble [((10000 : ℚ), (0 : ℚ)), (3000, 0), (7000, 0), (20000, 0), (5000, 0)],
      x ≠ -1 :=
  ⟨by simp,
   by norm_num [currentTimes, roundDouble_seconds],
   by
    norm_num [runRipples, createRipple, oldestRippleIndex, mathMin, indexOf, initialRippleStartTimes,
      maxRipples, List.replicate, min_def, roundDouble_seconds],
   C3_no_sentinel_after_five_runs roundDouble
    [((10000 : ℚ), (0 : ℚ)), (3000, 0), (7000, 0), (20000, 0), (5000, 0)]
    (by simp) (by norm_num [currentTimes, roundDouble_seconds])⟩

/-- C4: after every run of a finite sequence of `createRipple` runs from the initial
list, whatever the time and random values and the rounding of the arithmetic, the
timestamp list has exactly 5 (`maxRipples`) entries. -/
theorem C4_runRipples_length_five (fl : α → α) (calls : List (α × α)) :
    (runRipples fl calls).length = 5 ∧ (5 : Nat) = maxRipples ∧
      ∀ k, (runRipples fl (calls.take k)).length = 5 :=
  ⟨runRipples_length fl calls, rfl, fun k => runRipples_length fl (calls.take k)⟩

/-- C5 as amended: for every value `r` of `Math.random()`, that is `0 ≤ r < 1`, the
delay that `createRipple` hands to `setTimeout`, `r * 2000 + 500` computed in
doubles, satisfies `500 ≤ delay ≤ 2500`; computed exactly it is below 2500. -/
theorem C5_timeoutDelay_double_range (now r : ℚ) (xs : List ℚ) (h0 : 0 ≤ r) (h1 : r < 1) :
    (createRipple roundDouble now r xs).timeoutDelay
        = roundDouble (roundDouble (r * 2000) + 500) ∧
      500 ≤ (createRipple roundDouble now r xs).timeoutDelay ∧
      (createRipple roundDouble now r xs).timeoutDelay ≤ 2500 ∧
      (createRipple id now r xs).timeoutDelay = r * 2000 + 500 ∧
      (createRipple id now r xs).timeoutDelay < 2500 := by
  have hx0 : (0 : ℚ) ≤ r * 2000 := by linarith
  have hx1 : r * 2000 < 2000 := by linarith
  have hxabs : |r * 2000| < 2 ^ 53 := by
    rw [abs_of_nonneg hx0]
    norm_num
    linarith
  have ha0 : (0 : ℚ) ≤ roundDouble (r * 2000) := by
    have h := intCast_le_roundDouble (r * 2000) hxabs 0 (by simpa using hx0)
    simpa using h
  have ha1 : roundDouble (r * 2000) ≤ 2000 := by
    have h := roundDouble_le_intCast (r * 2000) hxabs 2000 (by push_cast; linarith)
    simpa using h
  have hyabs : |roundDouble (r * 2000) + 500| < 2 ^ 53 := by
    rw [abs_of_nonneg (by linarith)]
    norm_num
    linarith
  have hb0 : (500 : ℚ) ≤ roundDouble (roundDouble (r * 2000) + 500) := by
    have h := intCast_le_roundDouble (roundDouble (r * 2000) + 500) hyabs 500
      (by push_cast; linarith)
    simpa using h
  have hb1 : roundDouble (roundDouble (r * 2000) + 500) ≤ 2500 := by
    have h := roundDouble_le_intCast (roundDouble (r * 2000) + 500) hyabs 2500
      (by push_cast; linarith)
    simpa using h
  refine ⟨rfl, hb0, hb1, rfl, ?_⟩
  show id (id (r * 2000) + 500) < 2500
  simp only [id_eq]
  linarith

/-- C5 as amended, at `Math.random() = 1/2`: the delay is 1500 ms. -/
theorem C5_timeoutDelay_double_range_witness :
    (0 : ℚ) ≤ 1 / 2 ∧ (1 / 2 : ℚ) < 1 ∧
    roundDouble (roundDouble (1 / 2 * 2000) + 500) = 1500 ∧
    (createRipple roundDouble 10000 (1 / 2) initialRippleStartTimes).timeoutDelay
        = roundDouble (roundDouble (1 / 2 * 2000) + 500) ∧
    500 ≤ (createRipple roundDouble 10000 (1 / 2) initialRippleStartTimes).timeoutDelay ∧
    (createRipple roundDouble 10000 (1 / 2) initialRippleStartTimes).timeoutDelay ≤ 2500 ∧
    (createRipple id (10000 : ℚ) (1 / 2) initialRippleStartTimes).timeoutDelay
        = 1 / 2 * 2000 + 500 ∧
    (createRipple id (10000 : ℚ) (1 / 2) initialRippleStartTimes).timeoutDelay < 2500 :=
  ⟨by norm_num, by norm_num,
   by
    have h1 : roundDouble (1 / 2 * 2000) = 1000 := by
      have h := roundDouble_intCast 1000 (by norm_num)
      norm_num at h ⊢
      exact h
    have h2 : roundDouble (1000 + 500) = 1500 := by
      have h := roundDouble_intCast 1500 (by norm_num)
      norm_num at h ⊢
      exact h
    rw [h1, h2],
   C5_timeoutDelay_double_range 10000 (1 / 2) initialRippleStartTimes (by norm_num)
    (by norm_num)⟩

/-- C5 as stated fails in doubles: `r = 1 - 2^-53` is a double with `0 ≤ r < 1`;
`r * 2000` rounds to `2000 - 2^-42`, and adding 500 gives `2500 - 2^-42`, half way
between two doubles, which rounds to the even one, `2500`.  The delay is exactly
2500 and not below it. -/
theorem C5_timeoutDelay_counterexample :
    (0 : ℚ) ≤ 1 - 1 / 2 ^ 53 ∧ (1 - 1 / 2 ^ 53 : ℚ) < 1 ∧
    roundDouble (1 - 1 / 2 ^ 53) = 1 - 1 / 2 ^ 53 ∧
    roundDouble ((1 - 1 / 2 ^ 53) * 2000) = 2000 - 1 / 2 ^ 42 ∧
    (createRipple roundDouble 10000 (1 - 1 / 2 ^ 53) initialRippleStartTimes).timeoutDelay
      = 2500 ∧
    ¬ (createRipple roundDouble 10000 (1 - 1 / 2 ^ 53) initialRippleStartTimes).timeoutDelay
      < 2500 := by
  have hr : roundDouble (1 - 1 / 2 ^ 53) = 1 - 1 / 2 ^ 53 := by
    rw [roundDouble_eq_of (1 - 1 / 2 ^ 53) (-1) (2 ^ 53 - 1) (by norm_num)
      (by rw [abs_of_pos (by norm_num)]; norm_num)
      (by rw [abs_of_pos (by norm_num)]; norm_num)
      (roundHalfEven_of_lt_half _ _ (by norm_num) (by norm_num))]
    norm_num
  have hmul : roundDouble ((1 - 1 / 2 ^ 53) * 2000) = 2000 - 1 / 2 ^ 42 := by
    rw [roundDouble_eq_of ((1 - 1 / 2 ^ 53) * 2000) 10 (2000 * 2 ^ 42 - 1) (by norm_num)
      (by rw [abs_of_pos (by norm_num)]; norm_num)
      (by rw [abs_of_pos (by norm_num)]; norm_num)
      (roundHalfEven_of_lt_half _ _ (by norm_num) (by norm_num))]
    norm_num
  have hadd : roundDouble (2000 - 1 / 2 ^ 42 + 500) = 2500 := by
    rw [roundDouble_eq_of (2000 - 1 / 2 ^ 42 + 500) 11 (2500 * 2 ^ 41 - 1 + 1)
      (by norm_num) (by rw [abs_of_pos (by norm_num)]; norm_num)
      (by rw [abs_of_pos (by norm_num)]; norm_num)
      (roundHalfEven_of_tie_odd _ _ (by norm_num) (by norm_num))]
    norm_num
  have hdelay : (createRipple roundDouble 10000 (1 - 1 / 2 ^ 53)
      initialRippleStartTimes).timeoutDelay = 2500 := by
    show roundDouble (roundDouble ((1 - 1 / 2 ^ 53) * 2000) + 500) = 2500
    rw [hmul, hadd]
  refine ⟨by norm_num, by norm_num, hr, hmul, hdelay, ?_⟩
  rw [hdelay]
  exact lt_irrefl _

/-- C6: in every state in which the model `origamiBoat` or one of the four lights is
absent, one run of `moveLights` ends without an exception and leaves the state, so
the position of every light, as it was; only when the model and the four lights
are all present can a position change. -/
theorem C6_moveLights_skips_when_absent (sin cos : α → α) (pi elapsed : α) (s : Scene α)
    (habsent : s.origamiBoat = none ∨ s.light1 = none ∨ s.light2 = none ∨
      s.light3 = none ∨ s.light4 = none) :
    moveLights sin cos pi elapsed s = Except.ok s := by
  unfold moveLights
  rcases habsent with h | h | h | h | h <;> simp [h]

/-- C6, at a state whose model is not loaded yet. -/
theorem C6_moveLights_skips_when_absent_witness :
    ((⟨none, some ⟨1, 2, 3⟩, some ⟨0, 0, 0⟩, some ⟨0, 0, 0⟩, some ⟨0, 0, 0⟩⟩ :
        Scene ℚ).origamiBoat = none ∨
      (⟨none, some ⟨1, 2, 3⟩, some ⟨0, 0, 0⟩, some ⟨0, 0, 0⟩, some ⟨0, 0, 0⟩⟩ :
        Scene ℚ).light1 = none ∨
      (⟨none, some ⟨1, 2, 3⟩, some ⟨0, 0, 0⟩, some ⟨0, 0, 0⟩, some ⟨0, 0, 0⟩⟩ :
        Scene ℚ).light2 = none ∨
      (⟨none, some ⟨1, 2, 3⟩, some ⟨0, 0, 0⟩, some ⟨0, 0, 0⟩, some ⟨0, 0, 0⟩⟩ :
        Scene ℚ).light3 = none ∨
      (⟨none, some ⟨1, 2, 3⟩, some ⟨0, 0, 0⟩, some ⟨0, 0, 0⟩, some ⟨0, 0, 0⟩⟩ :
        Scene ℚ).light4 = none) ∧
    moveLights (fun x => x) (fun x => 1 - x) (22 / 7) (4 : ℚ)
        ⟨none, some ⟨1, 2, 3⟩, some ⟨0, 0, 0⟩, some ⟨0, 0, 0⟩, some ⟨0, 0, 0⟩⟩
      = Except.ok ⟨none, some ⟨1, 2, 3⟩, some ⟨0, 0, 0⟩, some ⟨0, 0, 0⟩, some ⟨0, 0, 0⟩⟩ :=
  ⟨Or.inl rfl,
   C6_moveLights_skips_when_absent (fun x => x) (fun x => 1 - x) (22 / 7) (4 : ℚ)
    ⟨none, some ⟨1, 2, 3⟩, some ⟨0, 0, 0⟩, some ⟨0, 0, 0⟩, some ⟨0, 0, 0⟩⟩ (Or.inl rfl)⟩

/-- C7: with the model and the four lights present, for every elapsed time (the
scaled time is `tau = elapsed * 0.05`) and every model position `p`, `moveLights`
ends without an exception and sets the position of the light of index 0 to
`p + (0.75 sin(7.5 tau), 0.5 + 0.05 sin(7.5 tau), 0.75 cos(7.5 tau))`, over the real
numbers. -/
theorem C7_moveLights_light_index0 (elapsed : ℝ) (p l1 l2 l3 l4 : Vec3 ℝ) :
    ∃ s, moveLights Real.sin Real.cos Real.pi elapsed
        ⟨some p, some l1, some l2, some l3, some l4⟩ = Except.ok s ∧
      s.light1 = some
        ⟨p.x + 0.75 * Real.sin (7.5 * (elapsed * 0.05)),
         p.y + (0.5 + 0.05 * Real.sin (7.5 * (elapsed * 0.05))),
         p.z + 0.75 * Real.cos (7.5 * (elapsed * 0.05))⟩ := by
  refine ⟨_, by simp only [moveLights, positionOf, Option.isNone_some, Bool.or_self,
    Bool.false_eq_true, if_false]; rfl, ?_⟩
  simp [orbitLight, add_assoc]

/-- C8 as amended: with the model and the four lights present, for every elapsed
time (the scaled time is `tau = elapsed * 0.05`) and every model position `p`,
`moveLights` sets the position of the light of index 1 to
`p + (0.75 sin(7.5 tau + pi/2), 0.5 + 0.05 sin(7.5 tau), 0.75 cos(7.5 tau + pi/2))`:
the phase `pi/2` moves the orbit in `x` and `z`, the vertical bob has no phase. -/
theorem C8_moveLights_light_index1 (elapsed : ℝ) (p l1 l2 l3 l4 : Vec3 ℝ) :
    ∃ s, moveLights Real.sin Real.cos Real.pi elapsed
        ⟨some p, some l1, some l2, some l3, some l4⟩ = Except.ok s ∧
      s.light2 = some
        ⟨p.x + 0.75 * Real.sin (7.5 * (elapsed * 0.05) + Real.pi / 2),
         p.y + (0.5 + 0.05 * Real.sin (7.5 * (elapsed * 0.05))),
         p.z + 0.75 * Real.cos (7.5 * (elapsed * 0.05) + Real.pi / 2)⟩ := by
  refine ⟨_, by simp only [moveLights, positionOf, Option.isNone_some, Bool.or_self,
    Bool.false_eq_true, if_false]; rfl, ?_⟩
  simp [orbitLight, add_assoc]

/-- C8 as stated fails: at elapsed time 0 with the model at the origin the light of
index 1 is put at `(0.75, 0.5, 0)`, while the claimed position
`(0.75 sin(pi/2), 0.5 + 0.05 sin(pi/2), 0.75 cos(pi/2))` has the height `0.55`. -/
theorem C8_light_index1_counterexample :
    ∃ s, moveLights Real.sin Real.cos Real.pi 0
        ⟨some ⟨0, 0, 0⟩, some ⟨0, 0, 0⟩, some ⟨0, 0, 0⟩, some ⟨0, 0, 0⟩, some ⟨0, 0, 0⟩⟩
        = Except.ok s ∧
      s.light2 = some ⟨0.75, 0.5, 0⟩ ∧
      (⟨0 + 0.75 * Real.sin (7.5 * (0 * 0.05) + Real.pi / 2),
        0 + (0.5 + 0.05 * Real.sin (7.5 * (0 * 0.05) + Real.pi / 2)),
        0 + 0.75 * Real.cos (7.5 * (0 * 0.05) + Real.pi / 2)⟩ : Vec3 ℝ) = ⟨0.75, 0.55, 0⟩ ∧
      s.light2 ≠ some
        ⟨0 + 0.75 * Real.sin (7.5 * (0 * 0.05) + Real.pi / 2),
         0 + (0.5 + 0.05 * Real.sin (7.5 * (0 * 0.05) + Real.pi / 2)),
         0 + 0.75 * Real.cos (7.5 * (0 * 0.05) + Real.pi / 2)⟩ := by
  refine ⟨_, by simp only [moveLights, positionOf, Option.isNone_some, Bool.or_self,
    Bool.false_eq_true, if_false]; rfl, ?_, ?_, ?_⟩
  · simp [orbitLight]
  · norm_num
  · simp [orbitLight]
    norm_num

/-- C9 as amended: in every state reached from the initial list by `createRipple`
runs, each slot that no run has written (an unused slot) holds the sentinel `-1`,
and each written slot holds the current time of one of the runs, whatever its age:
a ripple that has expired is not reset to the sentinel. -/
theorem C9_unused_slot_holds_sentinel (fl : α → α) (calls : List (α × α)) (i : Nat) (hi : i < 5) :
    (i ∉ writtenSlots fl calls → (runRipples fl calls)[i]? = some (-1)) ∧
      (i ∈ writtenSlots fl calls → ∃ t ∈ currentTimes fl calls, (runRipples fl calls)[i]? = some t) := by
  refine ⟨fun h => ?_, (runRipples_slot fl calls i).2⟩
  rw [(runRipples_slot fl calls i).1 h, initialRippleStartTimes, List.getElem?_replicate]
  simp [maxRipples, hi]

/-- C9 as amended, after the runs at the seconds 10 and 12: the slots 0 and 1 are
written, the slot 3 is not and holds `-1`. -/
theorem C9_unused_slot_holds_sentinel_witness :
    3 < 5 ∧ writtenSlots roundDouble [((10000 : ℚ), (0 : ℚ)), (12000, 0)] = [0, 1] ∧
    (3 ∉ writtenSlots roundDouble [((10000 : ℚ), (0 : ℚ)), (12000, 0)] →
      (runRipples roundDouble [((10000 : ℚ), (0 : ℚ)), (12000, 0)])[3]? = some (-1 : ℚ)) ∧
    (3 ∈ writtenSlots roundDouble [((10000 : ℚ), (0 : ℚ)), (12000, 0)] →
      ∃ t ∈ currentTimes roundDouble [((10000 : ℚ), (0 : ℚ)), (12000, 0)],
        (runRipples roundDouble [((10000 : ℚ), (0 : ℚ)), (12000, 0)])[3]? = some t) :=
  ⟨by decide,
   by
    norm_num [writtenSlots, rippleHistory, createRipple, oldestRippleIndex, mathMin, indexOf,
      initialRippleStartTimes, maxRipples, List.replicate, min_def, roundDouble_seconds],
   C9_unused_slot_holds_sentinel roundDouble [((10000 : ℚ), (0 : ℚ)), (12000, 0)] 3 (by decide)⟩

/-- C9 as stated fails: after one run at the second 10 the slot 0 holds `10`; at the
later time 20 that ripple is 10 seconds old, `fadeOut` is `-1`, the ripple has
expired, and the slot still holds `10`, not the sentinel. -/
theorem C9_expired_slot_counterexample :
    runRipples roundDouble [((10000 : ℚ), (0 : ℚ))] = [10, -1, -1, -1, -1] ∧
    (∀ t ∈ currentTimes roundDouble [((10000 : ℚ), (0 : ℚ))], t ≤ 20) ∧
    (runRipples roundDouble [((10000 : ℚ), (0 : ℚ))])[0]? = some 10 ∧
    (5 : ℚ) ≤ 20 - 10 ∧ fadeOut ((20 : ℚ) - 10) = -1 ∧ fadeOut ((20 : ℚ) - 10) ≤ 0 ∧
    (10 : ℚ) ≠ -1 ∧
    ¬ (∀ (calls : List (ℚ × ℚ)) (time : ℚ) (i : Nat) (start : ℚ),
        (∀ t ∈ currentTimes roundDouble calls, t ≤ time) → (runRipples roundDouble calls)[i]? = some start →
        5 ≤ time - start → fadeOut (time - start) ≤ 0 → start = -1) := by
  have hrun : runRipples roundDouble [((10000 : ℚ), (0 : ℚ))] = [10, -1, -1, -1, -1] := by
    norm_num [runRipples, createRipple, oldestRippleIndex, mathMin, indexOf,
      initialRippleStartTimes, maxRipples, List.replicate, min_def, roundDouble_seconds]
  have htimes : ∀ t ∈ currentTimes roundDouble [((10000 : ℚ), (0 : ℚ))], t ≤ 20 := by
    norm_num [currentTimes, roundDouble_seconds]
  have hfade : fadeOut ((20 : ℚ) - 10) = -1 := by norm_num [fadeOut]
  refine ⟨hrun, htimes, by rw [hrun]; rfl, by norm_num, hfade, by rw [hfade]; norm_num,
    by norm_num, ?_⟩
  intro h
  have h10 := h [((10000 : ℚ), (0 : ℚ))] 20 0 10 htimes (by rw [hrun]; rfl) (by norm_num)
    (by rw [hfade]; norm_num)
  norm_num at h10

/-- C10: in the alpha computation of the fragment shader, in every linearly ordered
field and so over the real numbers, for every fragment coordinate `vUv` and every
`time`, a slot whose start time is not greater than 0 (the sentinel `-1` is one) or
whose age `time - start` is at least 5 seconds adds nothing: removing the slot
from the array leaves the computed alpha as it is, because `ringGradient` is never
negative and `fadeOut` is not positive from the age 5 on.  The output alpha is never
negative. -/
theorem C10_dead_slot_adds_no_alpha (distance : Vec2 α → Vec2 α → α) (time : α)
    (vUv : Vec2 α) (slots : List α) :
    (∀ (i : Nat) (hi : i < slots.length), (¬ 0 < slots[i] ∨ 5 ≤ time - slots[i]) →
        fragmentAlpha distance time (slots.eraseIdx i) vUv
          = fragmentAlpha distance time slots vUv) ∧
      (∀ rippleAge d : α, 0 ≤ ringGradient rippleAge d) ∧
      (∀ rippleAge : α, 5 ≤ rippleAge → fadeOut rippleAge ≤ 0) ∧
      0 ≤ fragmentAlpha distance time slots vUv :=
  ⟨fun i hi hdead =>
      foldl_rippleLoopBody_eraseIdx distance time vUv slots 0 (le_refl 0) i hi hdead,
    ringGradient_nonneg, fadeOut_nonpos,
    foldl_rippleLoopBody_ge distance time vUv slots 0⟩

/-- C10, at the time 11 with the slots `[10, -1, 4, -1, -1]` and the fragment
`(0.51, 0.51)`, the distance taken along the axes: the slot 2 is 7 seconds old, and
with or without it the alpha is `2/5`, all of it from the ripple started at 10. -/
theorem C10_dead_slot_adds_no_alpha_witness :
    (2 < [(10 : ℚ), -1, 4, -1, -1].length) ∧
    (5 : ℚ) ≤ 11 - 4 ∧
    fragmentAlpha (fun a b : Vec2 ℚ => |a.x - b.x| + |a.y - b.y|) 11
        [10, -1, 4, -1, -1] ⟨0.51, 0.51⟩ = 2 / 5 ∧
    fragmentAlpha (fun a b : Vec2 ℚ => |a.x - b.x| + |a.y - b.y|) 11
        ([(10 : ℚ), -1, 4, -1, -1].eraseIdx 2) ⟨0.51, 0.51⟩
      = fragmentAlpha (fun a b : Vec2 ℚ => |a.x - b.x| + |a.y - b.y|) 11
        [10, -1, 4, -1, -1] ⟨0.51, 0.51⟩ ∧
    0 ≤ fragmentAlpha (fun a b : Vec2 ℚ => |a.x - b.x| + |a.y - b.y|) 11
        [10, -1, 4, -1, -1] ⟨0.51, 0.51⟩ :=
  ⟨by decide, by norm_num,
   by
    norm_num [fragmentAlpha, rippleLoopBody, ringGradient, smoothstep, clamp, fadeOut,
      min_def, max_def, abs_of_nonneg],
   (C10_dead_slot_adds_no_alpha (fun a b : Vec2 ℚ => |a.x - b.x| + |a.y - b.y|) 11
      ⟨0.51, 0.51⟩ [10, -1, 4, -1, -1]).1 2 (by decide) (Or.inr (by norm_num)),
   (C10_dead_slot_adds_no_alpha (fun a b : Vec2 ℚ => |a.x - b.x| + |a.y - b.y|) 11
      ⟨0.51, 0.51⟩ [10, -1, 4, -1, -1]).2.2.2⟩

end OrigamiBoat
